import Mathlib

/-!
Verification development for the document-extraction core of the
RAG-document-summarizer repository (src/app/document_loader.py).

Strings are modelled as `List Char`.  External library calls (PyMuPDF,
pytesseract, pdf2image, OpenCV, the alternative loaders, python-pptx,
python-docx, PyPDF2) are modelled as environment fields of type
`Except (List Char) _`: `.ok` is a normal return, `.error msg` is the
call raising an exception with message `msg`.  Every function of the
source file is translated with its exact control flow, including each
`try`/`except` block.
-/

namespace RagLoader

abbrev Str := List Char

/-- Python `str.isspace` for the ASCII whitespace characters relevant to
`str.split()` / `str.strip()`. -/
def isSpace (c : Char) : Bool :=
  c = ' ' || c = '\t' || c = '\n' || c = '\r' || c = '\x0b' || c = '\x0c'

/-- Python `text.split()` (split on runs of whitespace, no empty parts). -/
def pySplit : List Char → List (List Char)
  | [] => []
  | [c] => if isSpace c then [] else [[c]]
  | c :: d :: rest =>
    if isSpace c then pySplit (d :: rest)
    else if isSpace d then [c] :: pySplit (d :: rest)
    else
      match pySplit (d :: rest) with
      | [] => [[c]]
      | w :: ws => (c :: w) :: ws

/-- Python `sep.join(parts)`. -/
def pyJoin (sep : List Char) : List (List Char) → List Char
  | [] => []
  | [w] => w
  | w :: ws => w ++ sep ++ pyJoin sep ws

/-- Python `text.replace(a, b)` for a one-character pattern. -/
def replace1 (a b : Char) : List Char → List Char
  | [] => []
  | c :: rest => (if c = a then b else c) :: replace1 a b rest

/-- Python `text.replace(ab, c)` for a two-character pattern replaced by a
single character: left-to-right, non-overlapping. -/
def replace2 (a b c : Char) : List Char → List Char
  | [] => []
  | [x] => [x]
  | x :: y :: rest =>
    if x = a ∧ y = b then c :: replace2 a b c rest
    else x :: replace2 a b c (y :: rest)

/-- Whether the two-character pattern `ab` occurs in the string. -/
def contains2 (a b : Char) : List Char → Bool
  | [] => false
  | x :: rest => (decide (x = a) && decide (rest.head? = some b)) || contains2 a b rest

/-- Python `text.split(newline)`: split at every newline, keeping empty parts. -/
def splitNl : List Char → List (List Char)
  | [] => [[]]
  | c :: rest =>
    if c = '\n' then [] :: splitNl rest
    else
      match splitNl rest with
      | [] => [[c]]
      | l :: ls => (c :: l) :: ls

/-- Python `text.strip()`. -/
def pyStrip (s : List Char) : List Char :=
  ((s.dropWhile isSpace).reverse.dropWhile isSpace).reverse

/-- Membership in the punctuation set of the noise-line filter of
`_clean_ocr_text` (the Python string of 12 punctuation characters). -/
def isPunct (c : Char) : Bool :=
  c = '.' || c = ',' || c = '!' || c = '?' || c = ';' || c = ':' ||
  c = '(' || c = ')' || c = '[' || c = ']' || c = '\x7b' || c = '\x7d'

/-- Step 1 of `_clean_ocr_text`: whitespace collapse via
`' '.join(text.split())`. -/
def normalizeWs (text : Str) : Str :=
  pyJoin [' '] (pySplit text)

/-- Step 2 of `_clean_ocr_text`: the seven global character-confusion
substitutions, in source order. -/
def fixOcrErrors (t : Str) : Str :=
  replace2 'v' 'v' 'w' (replace2 'c' 'l' 'd' (replace2 'r' 'n' 'm'
    (replace1 'l' 'I' (replace1 '1' 'l'
      (replace1 '0' 'O' (replace1 '|' 'I' t))))))

/-- The loop body of step 3 of `_clean_ocr_text`: strip the line, keep it
when its length exceeds two and it is not all punctuation. -/
def keepLine (line : List Char) : Option (List Char) :=
  if 2 < (pyStrip line).length && !((pyStrip line).all isPunct) then
    some (pyStrip line)
  else none

/-- Steps 3 and 4 of `_clean_ocr_text`: split into lines, keep stripped
lines of length greater than two that are not all punctuation, rejoin,
then drop lines whose strip is empty. -/
def lineFilter (t : Str) : Str :=
  pyJoin ['\n'] ((splitNl (pyJoin ['\n'] ((splitNl t).filterMap keepLine))).filter
    fun line => !(pyStrip line).isEmpty)

/-- Models `_clean_ocr_text` (document_loader.py lines 327-359): the early return
for falsy input, whitespace collapse, substitutions, then the line filter. -/
def cleanOcrText (text : Str) : Str :=
  if text.isEmpty then text
  else lineFilter (fixOcrErrors (normalizeWs text))

/-- Which code path produced a unit (models the per-path metadata tags of
the source: native PyMuPDF units, OCR units, alternative-loader
pass-through units, the placeholder unit, the error unit). -/
inductive ExtractionMethod
  | native
  | ocr
  | alternative
  | placeholder
  | error
  deriving DecidableEq, Repr

/-- One extracted unit (`Document` in the source): `page_content`, the
1-based page number from its metadata, and the producing path. -/
structure Document where
  pageContent : Str
  page : Nat
  method : ExtractionMethod
  deriving DecidableEq, Repr

/-- The three text sources PyMuPDF offers for one page: `page.get_text()`,
`page.get_text("text")`, and the span texts of `page.get_text("dict")`
(the dict is modelled by its span list; the source assumes the "blocks"
key is present). -/
structure PdfPage where
  text1 : Str
  text2 : Str
  spans : List Str
  deriving DecidableEq, Repr

/-- Outcomes of the external calls made by `_extract_text_with_ocr`:
whether the explicit Windows tesseract path exists, the PATH probe
(`.error` models the `subprocess.run` call raising, `.ok b` models
`returncode == 0` being `b`), whether `get_tesseract_version()` returns,
and the `convert_from_path` outcome.  A converted document is a list of
pages; each page is a list of preprocessed image variants; each variant
is a list of per-configuration `image_to_string` outcomes. -/
structure OcrEnv where
  tessExplicit : Bool
  tessPathOk : Except Str Bool
  tessVersionOk : Except Str Unit
  convert : Except Str (List (List (List (Except Str Str))))
  deriving Repr

/-- Outcomes of every external call `load` / `_load_pdf_with_ocr` can
make.  `bodyRaise` models an exception arising at a point of the
`_load_pdf_with_ocr` try body that is not itself guarded (for example
I/O during its logging); the guarded sub-calls catch their own
exceptions and are modelled by the other fields. -/
structure LoadEnv where
  ext : Str
  fitzPages : Except Str (List PdfPage)
  ocr : OcrEnv
  alt1 : Except Str (List Document)
  alt2 : Except Str (List Document)
  alt3 : Except Str (List Document)
  bodyRaise : Option Str
  pypdfFallback : Except Str (List Document)
  pptxLoad : Except Str (List Document)
  docxLoad : Except Str (List Document)
  txtLoad : Except Str (List Document)

/-- The per-page text selection of `_extract_text_with_pymupdf`
(lines 97-114): retry with `get_text("text")` then with the dict spans
when the current text is empty or its strip is shorter than 10. -/
def pymupdfPageText (p : PdfPage) : Str :=
  let t := p.text1
  let t := if t.isEmpty || (pyStrip t).length < 10 then p.text2 else t
  if t.isEmpty || (pyStrip t).length < 10 then pyJoin [' '] p.spans else t

/-- The page loop of `_extract_text_with_pymupdf` (`for page_num in
range(len(doc))` with the append guarded by
`text and len(text.strip()) > 0`). -/
def pymupdfDocs : List PdfPage → Nat → List Document
  | [], _ => []
  | p :: rest, idx =>
    let t := pymupdfPageText p
    if !t.isEmpty && !(pyStrip t).isEmpty then
      { pageContent := pyStrip t, page := idx + 1, method := .native } ::
        pymupdfDocs rest (idx + 1)
    else pymupdfDocs rest (idx + 1)

/-- Models `_extract_text_with_pymupdf` (lines 87-127): its outer `except`
returns the empty list. -/
def extractTextWithPymupdf (env : LoadEnv) : List Document :=
  match env.fitzPages with
  | .error _ => []
  | .ok pages => pymupdfDocs pages 0

/-- One iteration of the best-candidate accumulator of
`_extract_text_with_ocr` (lines 221-243): a raising attempt is skipped;
a successful attempt is cleaned and kept when its stripped length
strictly exceeds the best length so far. -/
def ocrStep (best : Str × Nat) (att : Except Str Str) : Str × Nat :=
  match att with
  | .error _ => best
  | .ok raw =>
    let cleaned := cleanOcrText raw
    if best.2 < (pyStrip cleaned).length then (cleaned, (pyStrip cleaned).length)
    else best

/-- The nested loops over preprocessed images and OCR configurations for
one page, starting from `best_text = ""`, `best_length = 0`. -/
def ocrBest (page : List (List (Except Str Str))) : Str × Nat :=
  page.foldl (fun best img => img.foldl ocrStep best) ([], 0)

/-- The per-page unit emission of `_extract_text_with_ocr`
(lines 246-253): a unit only when `best_text` is truthy and its stripped
length exceeds 10. -/
def ocrPageDoc (page : List (List (Except Str Str))) (pageNum : Nat) :
    Option Document :=
  if !(ocrBest page).1.isEmpty && 10 < (pyStrip (ocrBest page).1).length then
    some { pageContent := pyStrip (ocrBest page).1, page := pageNum, method := .ocr }
  else none

/-- The page loop (`for page_num, image in enumerate(images)`). -/
def ocrDocs : List (List (List (Except Str Str))) → Nat → List Document
  | [], _ => []
  | p :: rest, idx =>
    match ocrPageDoc p (idx + 1) with
    | some d => d :: ocrDocs rest (idx + 1)
    | none => ocrDocs rest (idx + 1)

/-- The tesseract resolution block of `_extract_text_with_ocr`
(lines 132-160): explicit path, else PATH probe (any probe failure
raises, caught and re-raised, then caught by the outer handler), then
the version check; any failure makes the whole adapter return `[]`. -/
def tesseractAvailable (env : OcrEnv) : Bool :=
  (env.tessExplicit ||
    (match env.tessPathOk with
     | .ok true => true
     | _ => false)) &&
  (match env.tessVersionOk with
   | .ok _ => true
   | .error _ => false)

/-- Models `_extract_text_with_ocr` (lines 129-263): unresolvable engine or a
raising page conversion yields `[]`; otherwise the page loop runs. -/
def extractTextWithOcr (env : OcrEnv) : List Document :=
  if !(tesseractAvailable env) then []
  else
    match env.convert with
    | .error _ => []
    | .ok pages => ocrDocs pages 0

/-- Models `" ".join(doc.page_content for doc in documents)`. -/
def joinContents (docs : List Document) : Str :=
  pyJoin [' '] (docs.map (·.pageContent))

/-- The loop of `_try_alternative_pdf_loaders` (lines 361-381): first
loader that returns and whose joined stripped output exceeds 10
characters wins; raising or short loaders are skipped. -/
def tryLoadersList : List (Except Str (List Document)) → List Document
  | [] => []
  | r :: rest =>
    match r with
    | .error _ => tryLoadersList rest
    | .ok docs =>
      if 10 < (pyStrip (joinContents docs)).length then docs
      else tryLoadersList rest

/-- Models `_try_alternative_pdf_loaders` over the fixed three-loader list
(PDFPlumberLoader, UnstructuredPDFLoader, PyPDFLoader). -/
def tryAlternativePdfLoaders (env : LoadEnv) : List Document :=
  tryLoadersList [env.alt1, env.alt2, env.alt3]

/-- The placeholder unit of `_load_pdf_with_ocr` (lines 77-80). -/
def placeholderDocument : Document :=
  { pageContent := ("This appears to be a scanned document or image-based PDF. To enable full text extraction, please install Tesseract OCR. For now, you can still use the document for basic operations.").toList,
    page := 1, method := .placeholder }

/-- Which stages of the cascade ran, for call-count instrumentation. -/
structure CascadeTrace where
  ranOcr : Bool
  ranAlt : Bool
  stage : ExtractionMethod
  deriving DecidableEq, Repr

/-- The try body of `_load_pdf_with_ocr` (lines 47-80): native
extraction, the 50-character acceptance test on the joined stripped
text, then OCR, then the alternative loaders, then the placeholder. -/
def pdfCascade (env : LoadEnv) : List Document × CascadeTrace :=
  let documents := extractTextWithPymupdf env
  if 50 < (pyStrip (joinContents documents)).length then
    (documents, { ranOcr := false, ranAlt := false, stage := .native })
  else
    let ocrDocuments := extractTextWithOcr env.ocr
    if !ocrDocuments.isEmpty then
      (ocrDocuments, { ranOcr := true, ranAlt := false, stage := .ocr })
    else
      let altDocuments := tryAlternativePdfLoaders env
      if !altDocuments.isEmpty then
        (altDocuments, { ranOcr := true, ranAlt := true, stage := .alternative })
      else
        ([placeholderDocument], { ranOcr := true, ranAlt := true, stage := .placeholder })

/-- Models `_load_pdf_with_ocr` (lines 44-85): on an unhandled exception in the
body, the `except` runs `PyPDFLoader(self.file_path).load()` once; that
own outcome of that call (including raising) is the outcome of the method. -/
def loadPdfWithOcr (env : LoadEnv) : Except Str (List Document) :=
  match env.bodyRaise with
  | some _ => env.pypdfFallback
  | none => .ok (pdfCascade env).1

/-- The error unit built by the outer handler of `load` (lines 39-42). -/
def mkErrorDocument (e : Str) : Document :=
  { pageContent := ("Error loading document: ").toList ++ e ++
      (". Please ensure the file is not corrupted and is in a supported format.").toList,
    page := 1, method := .error }

/-- The dispatch of `load` before its outer handler (lines 26-35): by
extension, with `ValueError` for unsupported extensions. -/
def loadRaw (env : LoadEnv) : Except Str (List Document) :=
  if env.ext = (".pdf").toList then loadPdfWithOcr env
  else if env.ext = (".pptx").toList then env.pptxLoad
  else if env.ext = (".docx").toList then env.docxLoad
  else if env.ext = (".txt").toList then env.txtLoad
  else .error (("Unsupported file type: ").toList ++ env.ext)

/-- Models `load` (lines 23-42): the outer `except Exception` turns any raise
into a single error unit. -/
def load (env : LoadEnv) : Except Str (List Document) :=
  match loadRaw env with
  | .ok docs => .ok docs
  | .error e => .ok [mkErrorDocument e]

/-- Outcomes of the external calls of `get_page_count`. -/
structure CountEnv where
  ext : Str
  fitzPageCount : Except Str Nat
  pypdf2PageCount : Except Str Nat
  pptxSlideCount : Except Str Nat
  docxParagraphCount : Except Str Nat
  txtWordCount : Except Str Nat
  deriving Repr

/-- Models `get_page_count` (lines 383-424). -/
def getPageCount (env : CountEnv) : Option Nat :=
  if env.ext = (".pdf").toList then
    match env.fitzPageCount with
    | .ok n => some n
    | .error _ =>
      match env.pypdf2PageCount with
      | .ok n => some n
      | .error _ => none
  else if env.ext = (".pptx").toList then
    match env.pptxSlideCount with
    | .ok n => some n
    | .error _ => none
  else if env.ext = (".docx").toList then
    match env.docxParagraphCount with
    | .ok p => some (max 1 (p / 30))
    | .error _ => none
  else if env.ext = (".txt").toList then
    match env.txtWordCount with
    | .ok w => some (max 1 (w / 500))
    | .error _ => none
  else none

/-- Images are opaque handles for the preprocessing model. -/
abbrev Img := Nat

/-- Outcomes of the OpenCV calls of `_preprocess_image_for_ocr`:
grayscale-plus-denoise, the three thresholding variants on the denoised
image, and the two morphological closings. -/
structure PreprocEnv where
  grayDenoise : Img → Except Str Img
  adaptiveThreshold : Img → Except Str Img
  otsuThreshold : Img → Except Str Img
  simpleThreshold : Img → Except Str Img
  morphCloseSmall : Img → Except Str Img
  morphCloseMedium : Img → Except Str Img

/-- A successful call contributes one variant, a raising call none
(the per-approach `try`/`except: pass` blocks of lines 277-298). -/
def exceptToList (r : Except Str Img) : List Img :=
  match r with
  | .ok i => [i]
  | .error _ => []

/-- The morphological loop body (lines 305-318): the small closing is
appended first; an exception before the medium append falls to the
`except` which appends the unprocessed input. -/
def morphVariants (env : PreprocEnv) (img : Img) : List Img :=
  match env.morphCloseSmall img with
  | .error _ => [img]
  | .ok small =>
    match env.morphCloseMedium img with
    | .error _ => [small, img]
    | .ok medium => [small, medium]

/-- Models `_preprocess_image_for_ocr` (lines 265-325): a failing
grayscale/denoise step returns the original image as the sole variant;
otherwise the three thresholded variants plus the denoised grayscale
each pass through the morphological loop. -/
def preprocessImageForOcr (env : PreprocEnv) (image : Img) : List Img :=
  match env.grayDenoise image with
  | .error _ => [image]
  | .ok denoised =>
    let processedImages :=
      exceptToList (env.adaptiveThreshold denoised) ++
      exceptToList (env.otsuThreshold denoised) ++
      exceptToList (env.simpleThreshold denoised) ++ [denoised]
    (processedImages.map (morphVariants env)).flatten

/-- The cleaned texts of the successful `image_to_string` attempts of a
flat attempt list, in iteration order. -/
def candList (l : List (Except Str Str)) : List Str :=
  l.filterMap fun att =>
    match att with
    | .ok raw => some (cleanOcrText raw)
    | .error _ => none

/-- The cleaned texts of all successful attempts of one page, over every
(preprocessed image, configuration) pair in iteration order. -/
def pageCandidates (page : List (List (Except Str Str))) : List Str :=
  candList page.flatten

/-- The maximal stripped cleaned-text length over the candidates of a page
(zero when there is none). -/
def maxCleanLen (page : List (List (Except Str Str))) : Nat :=
  (pageCandidates page).foldl (fun m c => max m (pyStrip c).length) 0

/-- A no-OCR environment: engine not at the explicit path and the PATH
probe raising. -/
def noOcrEnv : OcrEnv :=
  { tessExplicit := false, tessPathOk := .error [],
    tessVersionOk := .error [], convert := .error [] }

/-- Concrete environment: a PDF whose cascade body hits an unhandled
exception and whose bare PyPDFLoader retry also raises. -/
def c2Env : LoadEnv :=
  { ext := (".pdf").toList, fitzPages := .ok [], ocr := noOcrEnv,
    alt1 := .error [], alt2 := .error [], alt3 := .error [],
    bodyRaise := some (("boom").toList),
    pypdfFallback := .error (("pypdf crash").toList),
    pptxLoad := .error [], docxLoad := .error [], txtLoad := .error [] }

/-- Concrete environment: a PDF with one native page of sixty characters. -/
def c3Env : LoadEnv :=
  { ext := (".pdf").toList,
    fitzPages := .ok [{ text1 := List.replicate 60 'a', text2 := [], spans := [] }],
    ocr := noOcrEnv,
    alt1 := .error [], alt2 := .error [], alt3 := .error [],
    bodyRaise := none, pypdfFallback := .error [],
    pptxLoad := .error [], docxLoad := .error [], txtLoad := .error [] }

/-- Concrete environment: a zero-slide PPTX whose slide count the library
reports as 0. -/
def c6Env : CountEnv :=
  { ext := (".pptx").toList, fitzPageCount := .error [],
    pypdf2PageCount := .error [], pptxSlideCount := .ok 0,
    docxParagraphCount := .error [], txtWordCount := .error [] }

/-- Concrete environment: a DOCX with one hundred paragraphs. -/
def c6EnvDocx : CountEnv :=
  { ext := (".docx").toList, fitzPageCount := .error [],
    pypdf2PageCount := .error [], pptxSlideCount := .error [],
    docxParagraphCount := .ok 100, txtWordCount := .error [] }

/-- Concrete environment: a PDF with no native text layer and an
unresolvable OCR engine. -/
def c7Env : LoadEnv :=
  { ext := (".pdf").toList, fitzPages := .ok [], ocr := noOcrEnv,
    alt1 := .error [], alt2 := .error [], alt3 := .error [],
    bodyRaise := none, pypdfFallback := .error [],
    pptxLoad := .error [], docxLoad := .error [], txtLoad := .error [] }

/-- Concrete environment: a file with an unsupported extension. -/
def c8Env : LoadEnv :=
  { ext := (".xyz").toList, fitzPages := .error [], ocr := noOcrEnv,
    alt1 := .error [], alt2 := .error [], alt3 := .error [],
    bodyRaise := none, pypdfFallback := .error [],
    pptxLoad := .error [], docxLoad := .error [], txtLoad := .error [] }

/-- Concrete environment: an alternative loader returning units with
out-of-order page metadata and an empty-content unit. -/
def c9Env : LoadEnv :=
  { ext := (".pdf").toList, fitzPages := .ok [], ocr := noOcrEnv,
    alt1 := .ok [{ pageContent := ("twelve chars!").toList, page := 2,
                   method := .alternative },
                 { pageContent := [], page := 1, method := .alternative }],
    alt2 := .error [], alt3 := .error [],
    bodyRaise := none, pypdfFallback := .error [],
    pptxLoad := .error [], docxLoad := .error [], txtLoad := .error [] }

/-- One concrete OCR page: one image variant with two successful
configuration attempts of different lengths. -/
def c4Page : List (List (Except Str Str)) :=
  [[.ok (("this is a long enough line of text").toList),
    .ok (("short").toList)]]

/-- Concrete preprocessing environment whose grayscale/denoise step
raises. -/
def c10Env : PreprocEnv :=
  { grayDenoise := fun _ => .error [], adaptiveThreshold := fun i => .ok i,
    otsuThreshold := fun i => .ok i, simpleThreshold := fun i => .ok i,
    morphCloseSmall := fun i => .ok i, morphCloseMedium := fun i => .ok i }

theorem replace1_cons (a b c : Char) (s : List Char) :
    replace1 a b (c :: s) = (if c = a then b else c) :: replace1 a b s := rfl

theorem replace1_append (a b : Char) (u v : List Char) :
    replace1 a b (u ++ v) = replace1 a b u ++ replace1 a b v := by
  induction u with
  | nil => rfl
  | cons c u ih => simp [replace1, ih]

theorem mem_replace1 {a b d : Char} {s : List Char} (h : d ∈ replace1 a b s) :
    d = b ∨ d ∈ s := by
  induction s with
  | nil => simp [replace1] at h
  | cons c s ih =>
    rw [replace1_cons] at h
    rcases List.mem_cons.mp h with h1 | h1
    · by_cases hc : c = a
      · simp [hc] at h1
        exact Or.inl h1
      · simp [hc] at h1
        exact Or.inr (by simp [h1])
    · rcases ih h1 with h2 | h2
      · exact Or.inl h2
      · exact Or.inr (List.mem_cons_of_mem _ h2)

theorem not_mem_replace1_self {a b : Char} (hba : b ≠ a) (s : List Char) :
    a ∉ replace1 a b s := by
  induction s with
  | nil => simp [replace1]
  | cons c s ih =>
    rw [replace1_cons]
    intro h
    rcases List.mem_cons.mp h with h1 | h1
    · by_cases hc : c = a
      · simp [hc] at h1
        exact hba h1.symm
      · simp [hc] at h1
        exact hc h1.symm
    · exact ih h1

theorem replace1_eq_self {a : Char} (b : Char) {s : List Char} (h : a ∉ s) :
    replace1 a b s = s := by
  induction s with
  | nil => rfl
  | cons c s ih =>
    have hc : c ≠ a := fun hc => h (by simp [hc])
    rw [replace1_cons, if_neg hc, ih (fun hm => h (List.mem_cons_of_mem _ hm))]

theorem length_replace1 (a b : Char) (s : List Char) :
    (replace1 a b s).length = s.length := by
  induction s with
  | nil => rfl
  | cons c s ih => simp [replace1_cons, ih]

theorem replace2_cons_ne {a x : Char} (b c : Char) (hx : x ≠ a) (s : List Char) :
    replace2 a b c (x :: s) = x :: replace2 a b c s := by
  cases s with
  | nil => rfl
  | cons y s => simp [replace2, hx]

theorem mem_replace2 {a b c d : Char} {s : List Char}
    (h : d ∈ replace2 a b c s) : d = c ∨ d ∈ s := by
  induction s using replace2.induct a b c with
  | case1 => simp [replace2] at h
  | case2 x => simpa [replace2] using Or.inr h
  | case3 x y rest hm ih =>
    rw [replace2, if_pos hm] at h
    rcases List.mem_cons.mp h with h1 | h1
    · exact Or.inl h1
    · rcases ih h1 with h2 | h2
      · exact Or.inl h2
      · exact Or.inr (by simp [h2])
  | case4 x y rest hm ih =>
    rw [replace2, if_neg hm] at h
    rcases List.mem_cons.mp h with h1 | h1
    · exact Or.inr (by simp [h1])
    · rcases ih h1 with h2 | h2
      · exact Or.inl h2
      · exact Or.inr (by simpa using Or.inr h2)

theorem replace2_ne_nil {a b c : Char} {s : List Char} (h : s ≠ []) :
    replace2 a b c s ≠ [] := by
  match s with
  | [x] => simp [replace2]
  | x :: y :: rest =>
    by_cases hm : x = a ∧ y = b
    · simp [replace2, hm]
    · simp [replace2, hm]

theorem head?_replace2 (a b c : Char) (s : List Char) :
    (replace2 a b c s).head? = some c ∨ (replace2 a b c s).head? = s.head? := by
  match s with
  | [] => exact Or.inr rfl
  | [x] => exact Or.inr rfl
  | x :: y :: rest =>
    by_cases hm : x = a ∧ y = b
    · simp [replace2, hm]
    · simp [replace2, hm]

theorem contains2_cons (a b x : Char) (s : List Char) :
    contains2 a b (x :: s) =
      ((decide (x = a) && decide (s.head? = some b)) || contains2 a b s) := rfl

theorem contains2_cons_false {a b x : Char} {s : List Char}
    (h1 : ¬(x = a ∧ s.head? = some b)) (h2 : contains2 a b s = false) :
    contains2 a b (x :: s) = false := by
  rw [contains2_cons, h2]
  simp only [Bool.or_false, Bool.and_eq_false_iff]
  by_cases hx : x = a
  · exact Or.inr (decide_eq_false (fun hh => h1 ⟨hx, hh⟩))
  · exact Or.inl (decide_eq_false hx)

theorem contains2_cons_parts {a b x : Char} {s : List Char}
    (h : contains2 a b (x :: s) = false) :
    ¬(x = a ∧ s.head? = some b) ∧ contains2 a b s = false := by
  rw [contains2_cons] at h
  rcases Bool.or_eq_false_iff.mp h with ⟨h1, h2⟩
  refine ⟨?_, h2⟩
  intro ⟨hx, hh⟩
  rw [hx, hh] at h1
  simp at h1

theorem contains2_of_not_mem {a b : Char} {s : List Char} (h : b ∉ s) :
    contains2 a b s = false := by
  induction s with
  | nil => rfl
  | cons x s ih =>
    refine contains2_cons_false ?_ (ih (fun hm => h (List.mem_cons_of_mem _ hm)))
    intro ⟨_, hh⟩
    exact h (List.mem_cons_of_mem _ (List.mem_of_mem_head? hh))

theorem replace2_eq_self {a b : Char} (c : Char) {s : List Char}
    (h : contains2 a b s = false) : replace2 a b c s = s := by
  induction s using replace2.induct a b c with
  | case1 => rfl
  | case2 x => rfl
  | case3 x y rest hm ih =>
    exfalso
    rcases contains2_cons_parts h with ⟨h1, _⟩
    exact h1 ⟨hm.1, by simp [hm.2]⟩
  | case4 x y rest hm ih =>
    rw [replace2, if_neg hm, ih (contains2_cons_parts h).2]

theorem contains2_replace2_self {a b c : Char} (hca : c ≠ a) (hcb : c ≠ b)
    (s : List Char) : contains2 a b (replace2 a b c s) = false := by
  induction s using replace2.induct a b c with
  | case1 => rfl
  | case2 x => simp [replace2, contains2]
  | case3 x y rest hm ih =>
    rw [replace2, if_pos hm]
    exact contains2_cons_false (fun hp => hca hp.1) ih
  | case4 x y rest hm ih =>
    rw [replace2, if_neg hm]
    refine contains2_cons_false ?_ ih
    intro ⟨hx, hh⟩
    rcases head?_replace2 a b c (y :: rest) with hhd | hhd
    · rw [hhd] at hh
      exact hcb (by injection hh)
    · rw [hhd] at hh
      simp only [List.head?_cons, Option.some.injEq] at hh
      exact hm ⟨hx, hh⟩

theorem contains2_replace2_other {p q a b c : Char} (hcp : c ≠ p) (hcq : c ≠ q)
    {s : List Char} (h : contains2 p q s = false) :
    contains2 p q (replace2 a b c s) = false := by
  induction s using replace2.induct a b c with
  | case1 => rfl
  | case2 x => exact h
  | case3 x y rest hm ih =>
    rw [replace2, if_pos hm]
    have hrest : contains2 p q rest = false :=
      (contains2_cons_parts (contains2_cons_parts h).2).2
    exact contains2_cons_false (fun hp => hcp hp.1) (ih hrest)
  | case4 x y rest hm ih =>
    rw [replace2, if_neg hm]
    rcases contains2_cons_parts h with ⟨h1, h2⟩
    refine contains2_cons_false ?_ (ih h2)
    intro ⟨hx, hh⟩
    rcases head?_replace2 a b c (y :: rest) with hhd | hhd
    · rw [hhd] at hh
      exact hcq (by injection hh)
    · rw [hhd] at hh
      exact h1 ⟨hx, hh⟩

theorem replace2_cons₂ (a b c x y : Char) (s : List Char) :
    replace2 a b c (x :: y :: s) =
      if x = a ∧ y = b then c :: replace2 a b c s
      else x :: replace2 a b c (y :: s) := rfl

theorem replace2_sep {a b : Char} (c : Char) {m : Char} (hma : m ≠ a) (hmb : m ≠ b) :
    ∀ u v : List Char,
      replace2 a b c (u ++ m :: v) = replace2 a b c u ++ m :: replace2 a b c v
  | [], v => by
    rw [List.nil_append, replace2_cons_ne _ _ hma, replace2]
    rfl
  | [x], v => by
    rw [List.singleton_append]
    have hxm : ¬(x = a ∧ m = b) := fun hp => hmb hp.2
    rw [replace2_cons₂, if_neg hxm, replace2_cons_ne _ _ hma, replace2]
    rfl
  | x :: y :: us, v => by
    have h1 : (x :: y :: us) ++ m :: v = x :: y :: (us ++ m :: v) := rfl
    rw [h1]
    by_cases hm : x = a ∧ y = b
    · rw [replace2_cons₂, if_pos hm, replace2_cons₂, if_pos hm,
        replace2_sep c hma hmb us v]
      rfl
    · rw [replace2_cons₂, if_neg hm]
      have h2 : y :: (us ++ m :: v) = (y :: us) ++ m :: v := rfl
      rw [h2, replace2_sep c hma hmb (y :: us) v, replace2_cons₂, if_neg hm]
      rfl

theorem replace1_pyJoin {a : Char} (b : Char) (ha : a ≠ ' ') :
    ∀ ws : List (List Char),
      replace1 a b (pyJoin [' '] ws) = pyJoin [' '] (ws.map (replace1 a b))
  | [] => rfl
  | [w] => rfl
  | w :: w2 :: ws => by
    have h1 : pyJoin [' '] (w :: w2 :: ws) =
        w ++ [' '] ++ pyJoin [' '] (w2 :: ws) := rfl
    have hsp : replace1 a b [' '] = [' '] := by
      rw [replace1, if_neg (fun h => ha h.symm)]
      rfl
    rw [h1, replace1_append, replace1_append, hsp,
      replace1_pyJoin b ha (w2 :: ws)]
    rfl

theorem replace2_pyJoin {a b : Char} (c : Char) (ha : a ≠ ' ') (hb : b ≠ ' ') :
    ∀ ws : List (List Char),
      replace2 a b c (pyJoin [' '] ws) = pyJoin [' '] (ws.map (replace2 a b c))
  | [] => rfl
  | [w] => rfl
  | w :: w2 :: ws => by
    have h1 : pyJoin [' '] (w :: w2 :: ws) =
        w ++ ' ' :: pyJoin [' '] (w2 :: ws) := by
      show w ++ [' '] ++ pyJoin [' '] (w2 :: ws) = _
      simp
    rw [h1, replace2_sep c (Ne.symm ha) (Ne.symm hb) w,
      replace2_pyJoin c ha hb (w2 :: ws)]
    show _ = replace2 a b c w ++ [' '] ++
      pyJoin [' '] (replace2 a b c w2 :: ws.map (replace2 a b c))
    simp

/-- A maximal whitespace-free run, as produced by `pySplit`. -/
def Wordlike (w : List Char) : Prop :=
  w ≠ [] ∧ ∀ c ∈ w, isSpace c = false

theorem fixOcrErrors_pyJoin (ws : List (List Char)) :
    fixOcrErrors (pyJoin [' '] ws) = pyJoin [' '] (ws.map fixOcrErrors) := by
  unfold fixOcrErrors
  rw [replace1_pyJoin 'I' (by decide), replace1_pyJoin 'O' (by decide),
    replace1_pyJoin 'l' (by decide), replace1_pyJoin 'I' (by decide),
    replace2_pyJoin 'm' (by decide) (by decide),
    replace2_pyJoin 'd' (by decide) (by decide),
    replace2_pyJoin 'w' (by decide) (by decide)]
  simp only [List.map_map]
  rfl

theorem wordlike_replace1 {a b : Char} (hb : isSpace b = false) {w : List Char}
    (h : Wordlike w) : Wordlike (replace1 a b w) := by
  constructor
  · intro hn
    have := length_replace1 a b w
    rw [hn] at this
    exact h.1 (List.length_eq_zero.mp this.symm)
  · intro d hd
    rcases mem_replace1 hd with h1 | h1
    · rw [h1]; exact hb
    · exact h.2 d h1

theorem wordlike_replace2 {a b c : Char} (hc : isSpace c = false) {w : List Char}
    (h : Wordlike w) : Wordlike (replace2 a b c w) := by
  refine ⟨replace2_ne_nil h.1, ?_⟩
  intro d hd
  rcases mem_replace2 hd with h1 | h1
  · rw [h1]; exact hc
  · exact h.2 d h1

theorem wordlike_fixOcrErrors {w : List Char} (h : Wordlike w) :
    Wordlike (fixOcrErrors w) := by
  unfold fixOcrErrors
  exact wordlike_replace2 (by decide) (wordlike_replace2 (by decide)
    (wordlike_replace2 (by decide) (wordlike_replace1 (by decide)
      (wordlike_replace1 (by decide) (wordlike_replace1 (by decide)
        (wordlike_replace1 (by decide) h))))))

theorem fixOcrErrors_fixed (s : List Char) :
    fixOcrErrors (fixOcrErrors s) = fixOcrErrors s := by
  set s1 := replace1 '|' 'I' s with hs1
  set s2 := replace1 '0' 'O' s1 with hs2
  set s3 := replace1 '1' 'l' s2 with hs3
  set s4 := replace1 'l' 'I' s3 with hs4
  have hp2 : '|' ∉ s2 := by
    intro h
    rcases mem_replace1 h with h1 | h1
    · exact absurd h1 (by decide)
    · exact not_mem_replace1_self (by decide) s h1
  have hp3 : '|' ∉ s3 := by
    intro h
    rcases mem_replace1 h with h1 | h1
    · exact absurd h1 (by decide)
    · exact hp2 h1
  have hp4 : '|' ∉ s4 := by
    intro h
    rcases mem_replace1 h with h1 | h1
    · exact absurd h1 (by decide)
    · exact hp3 h1
  have h03 : '0' ∉ s3 := by
    intro h
    rcases mem_replace1 h with h1 | h1
    · exact absurd h1 (by decide)
    · exact not_mem_replace1_self (by decide) s1 h1
  have h04 : '0' ∉ s4 := by
    intro h
    rcases mem_replace1 h with h1 | h1
    · exact absurd h1 (by decide)
    · exact h03 h1
  have h14 : '1' ∉ s4 := by
    intro h
    rcases mem_replace1 h with h1 | h1
    · exact absurd h1 (by decide)
    · exact not_mem_replace1_self (by decide) s2 h1
  have hl4 : 'l' ∉ s4 := not_mem_replace1_self (by decide) s3
  set s5 := replace2 'r' 'n' 'm' s4 with hs5
  have hrn5 : contains2 'r' 'n' s5 = false :=
    contains2_replace2_self (by decide) (by decide) s4
  have hp5 : '|' ∉ s5 := by
    intro h
    rcases mem_replace2 h with h1 | h1
    · exact absurd h1 (by decide)
    · exact hp4 h1
  have h05 : '0' ∉ s5 := by
    intro h
    rcases mem_replace2 h with h1 | h1
    · exact absurd h1 (by decide)
    · exact h04 h1
  have h15 : '1' ∉ s5 := by
    intro h
    rcases mem_replace2 h with h1 | h1
    · exact absurd h1 (by decide)
    · exact h14 h1
  have hl5 : 'l' ∉ s5 := by
    intro h
    rcases mem_replace2 h with h1 | h1
    · exact absurd h1 (by decide)
    · exact hl4 h1
  have hs6 : replace2 'c' 'l' 'd' s5 = s5 :=
    replace2_eq_self 'd' (contains2_of_not_mem hl5)
  have hvv : contains2 'v' 'v' (replace2 'v' 'v' 'w' s5) = false :=
    contains2_replace2_self (by decide) (by decide) s5
  have hrnu : contains2 'r' 'n' (replace2 'v' 'v' 'w' s5) = false :=
    contains2_replace2_other (by decide) (by decide) hrn5
  have hpu : '|' ∉ replace2 'v' 'v' 'w' s5 := by
    intro h
    rcases mem_replace2 h with h1 | h1
    · exact absurd h1 (by decide)
    · exact hp5 h1
  have h0u : '0' ∉ replace2 'v' 'v' 'w' s5 := by
    intro h
    rcases mem_replace2 h with h1 | h1
    · exact absurd h1 (by decide)
    · exact h05 h1
  have h1u : '1' ∉ replace2 'v' 'v' 'w' s5 := by
    intro h
    rcases mem_replace2 h with h1 | h1
    · exact absurd h1 (by decide)
    · exact h15 h1
  have hlu : 'l' ∉ replace2 'v' 'v' 'w' s5 := by
    intro h
    rcases mem_replace2 h with h1 | h1
    · exact absurd h1 (by decide)
    · exact hl5 h1
  have hfix : fixOcrErrors s = replace2 'v' 'v' 'w' s5 := by
    show replace2 'v' 'v' 'w' (replace2 'c' 'l' 'd' s5) = _
    rw [hs6]
  rw [hfix]
  show replace2 'v' 'v' 'w' (replace2 'c' 'l' 'd' (replace2 'r' 'n' 'm'
    (replace1 'l' 'I' (replace1 '1' 'l' (replace1 '0' 'O'
      (replace1 '|' 'I' (replace2 'v' 'v' 'w' s5))))))) = _
  rw [replace1_eq_self 'I' hpu, replace1_eq_self 'O' h0u,
    replace1_eq_self 'l' h1u, replace1_eq_self 'I' hlu,
    replace2_eq_self 'm' hrnu,
    replace2_eq_self 'd' (contains2_of_not_mem hlu),
    replace2_eq_self 'w' hvv]

theorem pyJoin_cons₂ (sep w w2 : List Char) (ws : List (List Char)) :
    pyJoin sep (w :: w2 :: ws) = w ++ sep ++ pyJoin sep (w2 :: ws) := rfl

theorem pySplit_space_cons {c : Char} (hc : isSpace c = true) (v : List Char) :
    pySplit (c :: v) = pySplit v := by
  cases v with
  | nil => simp [pySplit, hc]
  | cons d rest => simp [pySplit, hc]

theorem pySplit_word : ∀ w : List Char, Wordlike w → pySplit w = [w]
  | [], h => absurd rfl h.1
  | [c], h => by simp [pySplit, h.2 c (by simp)]
  | c :: d :: rest, h => by
    have hc := h.2 c (by simp)
    have hd := h.2 d (by simp)
    have ih := pySplit_word (d :: rest)
      ⟨by simp, fun x hx => h.2 x (List.mem_cons_of_mem c hx)⟩
    simp [pySplit, hc, hd, ih]

theorem pySplit_word_sep : ∀ (w v : List Char), Wordlike w →
    pySplit (w ++ ' ' :: v) = w :: pySplit v
  | [], _, h => absurd rfl h.1
  | [c], v, h => by
    have hc := h.2 c (by simp)
    have hsp : isSpace ' ' = true := by decide
    show pySplit (c :: ' ' :: v) = [c] :: pySplit v
    simp [pySplit, hc, hsp, @pySplit_space_cons ' ' hsp v]
  | c :: d :: w', v, h => by
    have hc := h.2 c (by simp)
    have hd := h.2 d (by simp)
    have ih := pySplit_word_sep (d :: w') v
      ⟨by simp, fun x hx => h.2 x (List.mem_cons_of_mem c hx)⟩
    have h1 : (c :: d :: w') ++ ' ' :: v = c :: d :: (w' ++ ' ' :: v) := rfl
    rw [h1]
    rw [List.cons_append] at ih
    simp [pySplit, hc, hd, ih]

theorem pySplit_pyJoin : ∀ ws : List (List Char), (∀ w ∈ ws, Wordlike w) →
    pySplit (pyJoin [' '] ws) = ws
  | [], _ => rfl
  | [w], h => pySplit_word w (h w (by simp))
  | w :: w2 :: ws, h => by
    have h1 : pyJoin [' '] (w :: w2 :: ws) =
        w ++ ' ' :: pyJoin [' '] (w2 :: ws) := by
      rw [pyJoin_cons₂]
      simp
    rw [h1, pySplit_word_sep w _ (h w (by simp)),
      pySplit_pyJoin (w2 :: ws) (fun x hx => h x (List.mem_cons_of_mem w hx))]

theorem pySplit_wordlike : ∀ s : List Char, ∀ w ∈ pySplit s, Wordlike w
  | [] => by simp [pySplit]
  | [c] => by
    by_cases hc : isSpace c = true
    · simp [pySplit, hc]
    · have hc' : isSpace c = false := by simpa using hc
      simp only [pySplit, hc', Bool.false_eq_true, if_false]
      intro w hw
      rw [List.mem_singleton] at hw
      subst hw
      exact ⟨by simp, fun x hx => by rw [List.mem_singleton] at hx; rwa [hx]⟩
  | c :: d :: rest => by
    by_cases hc : isSpace c = true
    · rw [pySplit_space_cons hc]
      exact pySplit_wordlike (d :: rest)
    · have hc' : isSpace c = false := by simpa using hc
      by_cases hd : isSpace d = true
      · simp only [pySplit, hc', Bool.false_eq_true, if_false, hd, if_true]
        intro w hw
        rcases List.mem_cons.mp hw with h1 | h1
        · subst h1
          exact ⟨by simp, fun x hx => by rw [List.mem_singleton] at hx; rwa [hx]⟩
        · exact pySplit_wordlike (d :: rest) w h1
      · have hd' : isSpace d = false := by simpa using hd
        have ih := pySplit_wordlike (d :: rest)
        simp only [pySplit, hc', hd', Bool.false_eq_true, if_false]
        rcases hps : pySplit (d :: rest) with _ | ⟨w1, ws1⟩
        · intro w hw
          rw [List.mem_singleton] at hw
          subst hw
          exact ⟨by simp, fun x hx => by rw [List.mem_singleton] at hx; rwa [hx]⟩
        · intro w hw
          rw [hps] at ih
          rcases List.mem_cons.mp hw with h1 | h1
          · subst h1
            have hw1 := ih w1 (by simp)
            refine ⟨by simp, fun x hx => ?_⟩
            rcases List.mem_cons.mp hx with h2 | h2
            · rwa [h2]
            · exact hw1.2 x h2
          · exact ih w (List.mem_cons_of_mem w1 h1)

theorem mem_pyJoin {c : Char} : ∀ ws : List (List Char),
    c ∈ pyJoin [' '] ws → c = ' ' ∨ ∃ w ∈ ws, c ∈ w
  | [], h => by simp [pyJoin] at h
  | [w], h => Or.inr ⟨w, by simp, h⟩
  | w :: w2 :: ws, h => by
    rw [pyJoin_cons₂] at h
    rcases List.mem_append.mp h with h1 | h1
    · rcases List.mem_append.mp h1 with h2 | h2
      · exact Or.inr ⟨w, by simp, h2⟩
      · rw [List.mem_singleton] at h2
        exact Or.inl h2
    · rcases mem_pyJoin (w2 :: ws) h1 with h2 | ⟨w', hw', hcw⟩
      · exact Or.inl h2
      · exact Or.inr ⟨w', List.mem_cons_of_mem w hw', hcw⟩

theorem pyJoin_ne_nil : ∀ ws : List (List Char), (∀ w ∈ ws, Wordlike w) →
    ws ≠ [] → pyJoin [' '] ws ≠ []
  | [], _, hne => absurd rfl hne
  | [w], h, _ => by simpa [pyJoin] using (h w (by simp)).1
  | w :: w2 :: ws, _, _ => by
    rw [pyJoin_cons₂]
    simp

theorem pyJoin_head? : ∀ (w : List Char) (ws : List (List Char)), w ≠ [] →
    (pyJoin [' '] (w :: ws)).head? = w.head?
  | _, [], _ => rfl
  | [], w2 :: ws, h => absurd rfl h
  | c :: w', w2 :: ws, _ => by
    rw [pyJoin_cons₂]
    rfl

theorem pyJoin_getLast? : ∀ ws : List (List Char), (∀ w ∈ ws, Wordlike w) →
    ws ≠ [] → ∃ c, (pyJoin [' '] ws).getLast? = some c ∧ isSpace c = false
  | [], _, hne => absurd rfl hne
  | [w], h, _ => by
    have hw := h w (by simp)
    exact ⟨w.getLast hw.1, List.getLast?_eq_getLast w hw.1,
      hw.2 _ (List.getLast_mem hw.1)⟩
  | w :: w2 :: ws, h, _ => by
    rw [pyJoin_cons₂]
    rcases pyJoin_getLast? (w2 :: ws)
        (fun x hx => h x (List.mem_cons_of_mem w hx)) (by simp) with ⟨c, hc1, hc2⟩
    refine ⟨c, ?_, hc2⟩
    rw [List.getLast?_append_of_ne_nil _
      (pyJoin_ne_nil (w2 :: ws) (fun x hx => h x (List.mem_cons_of_mem w hx)) (by simp))]
    exact hc1

theorem dropWhile_isSpace_eq_self {s : List Char}
    (h : ∀ c, s.head? = some c → isSpace c = false) : s.dropWhile isSpace = s := by
  cases s with
  | nil => rfl
  | cons c rest => simp [List.dropWhile_cons, h c rfl]

theorem pyStrip_eq_self {s : List Char}
    (h1 : ∀ c, s.head? = some c → isSpace c = false)
    (h2 : ∀ c, s.getLast? = some c → isSpace c = false) : pyStrip s = s := by
  unfold pyStrip
  rw [dropWhile_isSpace_eq_self h1]
  rw [dropWhile_isSpace_eq_self (fun c hc =>
    h2 c (by rwa [List.head?_reverse] at hc))]
  exact List.reverse_reverse s

theorem splitNl_no_newline : ∀ {s : List Char}, '\n' ∉ s → splitNl s = [s]
  | [], _ => rfl
  | c :: rest, h => by
    have hc : ¬(c = '\n') := fun hc => h (by simp [hc])
    have ih := splitNl_no_newline (fun hm => h (List.mem_cons_of_mem c hm))
    simp [splitNl, hc, ih]

theorem fixNorm_eq (x : List Char) :
    fixOcrErrors (normalizeWs x) = pyJoin [' '] ((pySplit x).map fixOcrErrors) := by
  unfold normalizeWs
  exact fixOcrErrors_pyJoin (pySplit x)

theorem fixNorm_wordlike (x : List Char) :
    ∀ w ∈ (pySplit x).map fixOcrErrors, Wordlike w := by
  intro w hw
  rcases List.mem_map.mp hw with ⟨w0, hw0, rfl⟩
  exact wordlike_fixOcrErrors (pySplit_wordlike x w0 hw0)

theorem lineFilter_single {t : List Char} (hnl : '\n' ∉ t)
    (hstrip : pyStrip t = t) (htne : t ≠ []) :
    lineFilter t = (if 2 < t.length && !(t.all isPunct) then t else []) := by
  have hkeep : keepLine t =
      (if 2 < t.length && !(t.all isPunct) then some t else none) := by
    unfold keepLine
    rw [hstrip]
  unfold lineFilter
  rw [splitNl_no_newline hnl, List.filterMap_cons, hkeep]
  by_cases hcond : (2 < t.length && !(t.all isPunct)) = true
  · rw [if_pos hcond, if_pos hcond]
    show pyJoin ['\n'] ((splitNl (pyJoin ['\n'] [t])).filter _) = t
    have hjt : pyJoin ['\n'] [t] = t := rfl
    rw [hjt, splitNl_no_newline hnl, List.filter_cons, List.filter_nil]
    have htE : t.isEmpty = false := by
      rcases hft : t with _ | ⟨a, t'⟩
      · exact absurd hft htne
      · rfl
    rw [hstrip, htE]
    rfl
  · rw [if_neg hcond, if_neg hcond]
    rfl

theorem lineFilter_pyJoin (ws : List (List Char)) (hwl : ∀ w ∈ ws, Wordlike w) :
    lineFilter (pyJoin [' '] ws) =
      (if 2 < (pyJoin [' '] ws).length && !((pyJoin [' '] ws).all isPunct)
       then pyJoin [' '] ws else []) := by
  rcases ws with _ | ⟨w, ws'⟩
  · decide
  · have hnl : '\n' ∉ pyJoin [' '] (w :: ws') := by
      intro h
      rcases mem_pyJoin (w :: ws') h with h1 | ⟨w', hw', hcw⟩
      · exact absurd h1 (by decide)
      · have := (hwl w' hw').2 '\n' hcw
        simp [isSpace] at this
    have hwne : w ≠ [] := (hwl w (by simp)).1
    have hhead : ∀ c, (pyJoin [' '] (w :: ws')).head? = some c →
        isSpace c = false := by
      intro c hc
      rw [pyJoin_head? w ws' hwne] at hc
      rcases w with _ | ⟨c0, w0⟩
      · exact absurd rfl hwne
      · rw [List.head?_cons] at hc
        injection hc with hc
        subst hc
        exact (hwl (c0 :: w0) (by simp)).2 c0 (by simp)
    have hlast : ∀ c, (pyJoin [' '] (w :: ws')).getLast? = some c →
        isSpace c = false := by
      intro c hc
      rcases pyJoin_getLast? (w :: ws') hwl (by simp) with ⟨c0, hc0, hc0s⟩
      rw [hc0] at hc
      injection hc with hc
      rwa [hc] at hc0s
    exact lineFilter_single hnl (pyStrip_eq_self hhead hlast)
      (pyJoin_ne_nil _ hwl (by simp))

theorem cleanOcrText_eval {x : List Char} (hx : x.isEmpty = false) :
    cleanOcrText x =
      (if 2 < (fixOcrErrors (normalizeWs x)).length &&
          !((fixOcrErrors (normalizeWs x)).all isPunct)
       then fixOcrErrors (normalizeWs x) else []) := by
  unfold cleanOcrText
  rw [hx]
  simp only [Bool.false_eq_true, if_false]
  rw [fixNorm_eq x]
  exact lineFilter_pyJoin _ (fixNorm_wordlike x)

theorem normalizeWs_fixNorm (x : List Char) :
    normalizeWs (fixOcrErrors (normalizeWs x)) = fixOcrErrors (normalizeWs x) := by
  rw [fixNorm_eq]
  unfold normalizeWs
  rw [pySplit_pyJoin _ (fixNorm_wordlike x)]

/-- C1: the Text Cleaner `_clean_ocr_text` is idempotent: for every input
string `x`, cleaning twice yields the same result as cleaning once. -/
theorem clean_ocr_text_idempotent (x : List Char) :
    cleanOcrText (cleanOcrText x) = cleanOcrText x := by
  rcases x with _ | ⟨c, x'⟩
  · rfl
  · have hx' : ((c :: x').isEmpty) = false := rfl
    rw [cleanOcrText_eval hx']
    by_cases hcond : (2 < (fixOcrErrors (normalizeWs (c :: x'))).length &&
        !((fixOcrErrors (normalizeWs (c :: x'))).all isPunct)) = true
    · rw [if_pos hcond]
      have htne : fixOcrErrors (normalizeWs (c :: x')) ≠ [] := by
        intro h
        rw [h] at hcond
        simp at hcond
      have htE : (fixOcrErrors (normalizeWs (c :: x'))).isEmpty = false := by
        rcases hfe : fixOcrErrors (normalizeWs (c :: x')) with _ | ⟨a, t'⟩
        · exact absurd hfe htne
        · rfl
      rw [cleanOcrText_eval htE, normalizeWs_fixNorm (c :: x'),
        fixOcrErrors_fixed (normalizeWs (c :: x')), if_pos hcond]
    · rw [if_neg hcond]
      rfl

theorem not_mem_replace1_of {a b d : Char} (hd : d ≠ b) {s : List Char}
    (h : d ∉ s) : d ∉ replace1 a b s :=
  fun hm => (mem_replace1 hm).elim (fun h1 => hd h1) h

theorem not_mem_replace2_of {a b c d : Char} (hd : d ≠ c) {s : List Char}
    (h : d ∉ s) : d ∉ replace2 a b c s :=
  fun hm => (mem_replace2 hm).elim (fun h1 => hd h1) h

theorem ell_not_mem_fixOcrErrors (s : List Char) : 'l' ∉ fixOcrErrors s := by
  unfold fixOcrErrors
  exact not_mem_replace2_of (by decide) (not_mem_replace2_of (by decide)
    (not_mem_replace2_of (by decide) (not_mem_replace1_self (by decide) _)))

theorem one_not_mem_fixOcrErrors (s : List Char) : '1' ∉ fixOcrErrors s := by
  unfold fixOcrErrors
  exact not_mem_replace2_of (by decide) (not_mem_replace2_of (by decide)
    (not_mem_replace2_of (by decide) (not_mem_replace1_of (by decide)
      (not_mem_replace1_self (by decide) _))))

theorem fixOcrErrors_cons_one (s : List Char) :
    fixOcrErrors ('1' :: s) = 'I' :: fixOcrErrors s := by
  unfold fixOcrErrors
  rw [replace1_cons '|' 'I' '1' s, if_neg (by decide)]
  rw [replace1_cons '0' 'O' '1' _, if_neg (by decide)]
  rw [replace1_cons '1' 'l' '1' _, if_pos rfl]
  rw [replace1_cons 'l' 'I' 'l' _, if_pos rfl]
  rw [replace2_cons_ne 'n' 'm' (show ('I' : Char) ≠ 'r' by decide)]
  rw [replace2_cons_ne 'l' 'd' (show ('I' : Char) ≠ 'c' by decide)]
  rw [replace2_cons_ne 'v' 'w' (show ('I' : Char) ≠ 'v' by decide)]

/-- C5 counterexample: cleaning the input 1234 yields I234, so the
literal digit one does not appear as the letter ell in the cleaned
output (a later substitution rewrites the ell to a capital i). -/
theorem clean_one_becomes_capital_i_cex :
    cleanOcrText (("1234").toList) = ("I234").toList ∧
      'l' ∉ cleanOcrText (("1234").toList) := by
  constructor
  · rfl
  · decide

/-- C5 amended: the substitutions of `_clean_ocr_text` are global and
unconditional, but a literal digit one is first rewritten to ell and
then by the later ell-to-capital-i substitution to a capital i, so
neither a digit one nor an ell survives the substitution step. -/
theorem clean_one_becomes_capital_i (s : List Char) :
    fixOcrErrors ('1' :: s) = 'I' :: fixOcrErrors s ∧
      '1' ∉ fixOcrErrors s ∧ 'l' ∉ fixOcrErrors s :=
  ⟨fixOcrErrors_cons_one s, one_not_mem_fixOcrErrors s,
    ell_not_mem_fixOcrErrors s⟩

/-- C6 counterexample: for a zero-slide PPTX the slide count is returned
unclamped, so the page-count operation returns zero rather than a
positive integer or the absent value. -/
theorem page_count_zero_cex : getPageCount c6Env = some 0 := rfl

/-- C6 amended: the page-count operation never raises and returns the
count or the absent value; for DOCX and TXT the heuristic estimate is
clamped to at least one, while for PDF and PPTX the library-reported
count is returned unclamped and can be zero. -/
theorem page_count_docx_txt_positive (env : CountEnv) (n : Nat)
    (hext : env.ext = (".docx").toList ∨ env.ext = (".txt").toList)
    (h : getPageCount env = some n) : 1 ≤ n := by
  unfold getPageCount at h
  rcases hext with he | he
  · rw [he, if_neg (by decide), if_neg (by decide), if_pos rfl] at h
    rcases hd : env.docxParagraphCount with e | p
    · rw [hd] at h
      cases h
    · rw [hd] at h
      injection h with h
      omega
  · rw [he, if_neg (by decide), if_neg (by decide), if_neg (by decide),
      if_pos rfl] at h
    rcases hd : env.txtWordCount with e | w
    · rw [hd] at h
      cases h
    · rw [hd] at h
      injection h with h
      omega

/-- C6 amended witness: a DOCX with one hundred paragraphs is estimated
at three pages, a positive count. -/
theorem page_count_docx_txt_positive_witness :
    getPageCount c6EnvDocx = some 3 ∧ 1 ≤ 3 :=
  ⟨rfl, page_count_docx_txt_positive c6EnvDocx 3 (Or.inl rfl) rfl⟩

theorem morphVariants_ne_nil (env : PreprocEnv) (img : Img) :
    morphVariants env img ≠ [] := by
  unfold morphVariants
  rcases env.morphCloseSmall img with e | s
  · simp
  · rcases env.morphCloseMedium img with e | m <;> simp

theorem morphVariants_length_le (env : PreprocEnv) (img : Img) :
    (morphVariants env img).length ≤ 2 := by
  unfold morphVariants
  rcases env.morphCloseSmall img with e | s
  · simp
  · rcases env.morphCloseMedium img with e | m <;> simp

theorem exceptToList_length_le (r : Except Str Img) :
    (exceptToList r).length ≤ 1 := by
  rcases r with e | i <;> simp [exceptToList]

theorem flatten_length_le_two_mul {L : List (List Img)}
    (h : ∀ x ∈ L, x.length ≤ 2) : L.flatten.length ≤ 2 * L.length := by
  induction L with
  | nil => simp
  | cons x L ih =>
    rw [List.flatten_cons, List.length_append, List.length_cons]
    have h1 := h x (by simp)
    have h2 := ih (fun y hy => h y (List.mem_cons_of_mem x hy))
    omega

/-- C10: the Image Preprocessor always returns a nonempty list of at
most eight variants and never raises; when the grayscale/denoise step
fails, the original image is returned as the sole variant. -/
theorem preprocess_nonempty_bounded (env : PreprocEnv) (image : Img) :
    preprocessImageForOcr env image ≠ [] ∧
      (preprocessImageForOcr env image).length ≤ 8 ∧
      ∀ e, env.grayDenoise image = .error e →
        preprocessImageForOcr env image = [image] := by
  rcases hg : env.grayDenoise image with e | d
  · have hres : preprocessImageForOcr env image = [image] := by
      unfold preprocessImageForOcr
      rw [hg]
    rw [hres]
    exact ⟨by simp, by simp, fun e2 he2 => rfl⟩
  · have hres : preprocessImageForOcr env image =
        ((exceptToList (env.adaptiveThreshold d) ++
          exceptToList (env.otsuThreshold d) ++
          exceptToList (env.simpleThreshold d) ++ [d]).map
            (morphVariants env)).flatten := by
      unfold preprocessImageForOcr
      rw [hg]
    rw [hres]
    refine ⟨?_, ?_, fun e2 he2 => Except.noConfusion he2⟩
    · have hmem : morphVariants env d ∈
          ((exceptToList (env.adaptiveThreshold d) ++
            exceptToList (env.otsuThreshold d) ++
            exceptToList (env.simpleThreshold d) ++ [d]).map
              (morphVariants env)) := by
        apply List.mem_map_of_mem
        simp
      rcases List.exists_mem_of_ne_nil _ (morphVariants_ne_nil env d) with ⟨y, hy⟩
      intro hnil
      have : y ∈ (List.map (morphVariants env)
          (exceptToList (env.adaptiveThreshold d) ++
            exceptToList (env.otsuThreshold d) ++
            exceptToList (env.simpleThreshold d) ++ [d])).flatten :=
        List.mem_flatten.mpr ⟨morphVariants env d, hmem, hy⟩
      rw [hnil] at this
      cases this
    · have hlen : (exceptToList (env.adaptiveThreshold d) ++
          exceptToList (env.otsuThreshold d) ++
          exceptToList (env.simpleThreshold d) ++ [d]).length ≤ 4 := by
        rw [List.length_append, List.length_append, List.length_append]
        have := exceptToList_length_le (env.adaptiveThreshold d)
        have := exceptToList_length_le (env.otsuThreshold d)
        have := exceptToList_length_le (env.simpleThreshold d)
        simp only [List.length_cons, List.length_nil]
        omega
      have hb := flatten_length_le_two_mul (L :=
        (exceptToList (env.adaptiveThreshold d) ++
          exceptToList (env.otsuThreshold d) ++
          exceptToList (env.simpleThreshold d) ++ [d]).map (morphVariants env))
        (by
          intro x hx
          rcases List.mem_map.mp hx with ⟨i, _, rfl⟩
          exact morphVariants_length_le env i)
      rw [List.length_map] at hb
      omega

/-- C10 witness: with a failing grayscale/denoise step, image seven is
returned as the sole variant. -/
theorem preprocess_nonempty_bounded_witness :
    preprocessImageForOcr c10Env 7 = [7] :=
  (preprocess_nonempty_bounded c10Env 7).2.2 [] rfl

theorem pdfCascade_native {env : LoadEnv}
    (h : 50 < (pyStrip (joinContents (extractTextWithPymupdf env))).length) :
    pdfCascade env = (extractTextWithPymupdf env,
      { ranOcr := false, ranAlt := false, stage := .native }) := by
  simp only [pdfCascade]
  rw [if_pos h]

theorem pdfCascade_ocr {env : LoadEnv}
    (h : ¬ 50 < (pyStrip (joinContents (extractTextWithPymupdf env))).length)
    (hocr : extractTextWithOcr env.ocr ≠ []) :
    pdfCascade env = (extractTextWithOcr env.ocr,
      { ranOcr := true, ranAlt := false, stage := .ocr }) := by
  simp only [pdfCascade]
  rw [if_neg h, if_pos (by simpa using hocr)]

theorem pdfCascade_alt {env : LoadEnv}
    (h : ¬ 50 < (pyStrip (joinContents (extractTextWithPymupdf env))).length)
    (hocr : extractTextWithOcr env.ocr = [])
    (halt : tryAlternativePdfLoaders env ≠ []) :
    pdfCascade env = (tryAlternativePdfLoaders env,
      { ranOcr := true, ranAlt := true, stage := .alternative }) := by
  simp only [pdfCascade]
  rw [if_neg h, if_neg (by simp [hocr]), if_pos (by simpa using halt)]

theorem pdfCascade_placeholder {env : LoadEnv}
    (h : ¬ 50 < (pyStrip (joinContents (extractTextWithPymupdf env))).length)
    (hocr : extractTextWithOcr env.ocr = [])
    (halt : tryAlternativePdfLoaders env = []) :
    pdfCascade env = ([placeholderDocument],
      { ranOcr := true, ranAlt := true, stage := .placeholder }) := by
  simp only [pdfCascade]
  rw [if_neg h, if_neg (by simp [hocr]), if_neg (by simp [halt])]

/-- C2 counterexample: with an unhandled exception in the PDF cascade
body and a failing bare PyPDFLoader retry, the public load operation
still returns a degraded single error unit instead of raising: its outer
handler absorbs the exception. -/
theorem load_absorbs_failed_retry_cex :
    load c2Env = .ok [mkErrorDocument (("pypdf crash").toList)] := rfl

/-- C2 amended: an unhandled exception in the PDF cascade body triggers
exactly one bare native retry (the outcome of the method is the outcome
of the retry); when that retry also raises, the exception propagates out of
the PDF controller but is absorbed by the outer handler of the public load
handler, which returns one error unit — the public load never raises. -/
theorem pdf_retry_absorbed_by_load (env : LoadEnv) (e e' : Str)
    (hext : env.ext = (".pdf").toList)
    (hb : env.bodyRaise = some e)
    (hf : env.pypdfFallback = .error e') :
    loadPdfWithOcr env = env.pypdfFallback ∧
      load env = .ok [mkErrorDocument e'] := by
  have h1 : loadPdfWithOcr env = env.pypdfFallback := by
    unfold loadPdfWithOcr
    rw [hb]
  refine ⟨h1, ?_⟩
  unfold load loadRaw
  rw [hext, if_pos rfl, h1, hf]

/-- C2 amended witness: the concrete raising environment evaluates to
the single error unit. -/
theorem pdf_retry_absorbed_by_load_witness :
    loadPdfWithOcr c2Env = c2Env.pypdfFallback ∧
      load c2Env = .ok [mkErrorDocument (("pypdf crash").toList)] :=
  pdf_retry_absorbed_by_load c2Env (("boom").toList) (("pypdf crash").toList)
    rfl rfl rfl

/-- C3: whenever the joined stripped text of the native extraction exceeds 50
characters, the cascade returns exactly the native units with the native
stage tag and the OCR stage is never invoked. -/
theorem native_over_50_accepted (env : LoadEnv)
    (h : 50 < (pyStrip (joinContents (extractTextWithPymupdf env))).length) :
    pdfCascade env = (extractTextWithPymupdf env,
      { ranOcr := false, ranAlt := false, stage := .native }) :=
  pdfCascade_native h

/-- C3 witness: a PDF with one sixty-character native page is accepted
natively without invoking OCR. -/
theorem native_over_50_accepted_witness :
    pdfCascade c3Env = (extractTextWithPymupdf c3Env,
      { ranOcr := false, ranAlt := false, stage := .native }) :=
  native_over_50_accepted c3Env (by decide)

/-- C7: with the OCR engine unresolvable (not at the explicit path, PATH
probe not succeeding), the OCR stage returns no units without raising,
and whenever the native yield is insufficient the cascade proceeds to
the alternative-loader stage. -/
theorem ocr_unresolvable_proceeds_to_alternatives (env : LoadEnv)
    (h1 : env.ocr.tessExplicit = false)
    (h2 : env.ocr.tessPathOk ≠ .ok true) :
    extractTextWithOcr env.ocr = [] ∧
      ((pyStrip (joinContents (extractTextWithPymupdf env))).length ≤ 50 →
        (pdfCascade env).2.ranAlt = true) := by
  have hav : tesseractAvailable env.ocr = false := by
    unfold tesseractAvailable
    rw [h1]
    rcases hp : env.ocr.tessPathOk with e | b
    · simp
    · rcases b with _ | _
      · simp
      · exact absurd hp h2
  have hocr : extractTextWithOcr env.ocr = [] := by
    unfold extractTextWithOcr
    rw [hav]
    rfl
  refine ⟨hocr, fun hle => ?_⟩
  have h50 : ¬ 50 < (pyStrip (joinContents (extractTextWithPymupdf env))).length := by
    omega
  by_cases halt : tryAlternativePdfLoaders env = []
  · rw [pdfCascade_placeholder h50 hocr halt]
  · rw [pdfCascade_alt h50 hocr halt]

/-- C7 witness: the concrete no-engine environment yields no OCR units
and reaches the alternative-loader stage. -/
theorem ocr_unresolvable_proceeds_to_alternatives_witness :
    extractTextWithOcr c7Env.ocr = [] ∧
      ((pyStrip (joinContents (extractTextWithPymupdf c7Env))).length ≤ 50 →
        (pdfCascade c7Env).2.ranAlt = true) :=
  ocr_unresolvable_proceeds_to_alternatives c7Env rfl
    (fun h => Except.noConfusion h)

/-- C8: for every non-PDF input the load operation never raises; when
the dispatched loader (or the unsupported-extension check) raises, the
result is exactly one error unit whose content contains the error
message. -/
theorem non_pdf_load_never_raises (env : LoadEnv)
    (he : env.ext ≠ (".pdf").toList) :
    (∃ ds, load env = .ok ds) ∧
      ∀ e, loadRaw env = .error e →
        load env = .ok [mkErrorDocument e] ∧
          ∃ u v, u ++ e ++ v = (mkErrorDocument e).pageContent := by
  constructor
  · unfold load
    rcases h : loadRaw env with e | ds
    · exact ⟨[mkErrorDocument e], rfl⟩
    · exact ⟨ds, rfl⟩
  · intro e h
    constructor
    · unfold load
      rw [h]
    · exact ⟨("Error loading document: ").toList,
        (". Please ensure the file is not corrupted and is in a supported format.").toList,
        rfl⟩

/-- C8 witness: a file with an unsupported extension produces one error
unit whose content contains the raised message. -/
theorem non_pdf_load_never_raises_witness :
    (∃ ds, load c8Env = .ok ds) ∧
      ∀ e, loadRaw c8Env = .error e →
        load c8Env = .ok [mkErrorDocument e] ∧
          ∃ u v, u ++ e ++ v = (mkErrorDocument e).pageContent :=
  non_pdf_load_never_raises c8Env (by decide)

theorem ocrBest_eq_flatten (page : List (List (Except Str Str))) :
    ocrBest page = page.flatten.foldl ocrStep ([], 0) := by
  unfold ocrBest
  rw [List.foldl_flatten]

theorem ocrFold_spec : ∀ (l : List (Except Str Str)) (b : Str × Nat),
    (pyStrip b.1).length = b.2 →
    (pyStrip (l.foldl ocrStep b).1).length = (l.foldl ocrStep b).2 ∧
      (l.foldl ocrStep b).2 =
        (candList l).foldl (fun m c => max m (pyStrip c).length) b.2 ∧
      (l.foldl ocrStep b = b ∨ (l.foldl ocrStep b).1 ∈ candList l)
  | [], b, hb => ⟨hb, rfl, Or.inl rfl⟩
  | att :: l, b, hb => by
    rcases att with e | raw
    · have h1 : ocrStep b (.error e) = b := rfl
      have h2 : candList (.error e :: l) = candList l := by
        simp [candList]
      rw [List.foldl_cons, h1, h2]
      exact ocrFold_spec l b hb
    · have h2 : candList (.ok raw :: l) = cleanOcrText raw :: candList l := by
        simp [candList]
      rw [List.foldl_cons, h2, List.foldl_cons]
      by_cases hlt : b.2 < (pyStrip (cleanOcrText raw)).length
      · have hstep : ocrStep b (.ok raw) =
            (cleanOcrText raw, (pyStrip (cleanOcrText raw)).length) := by
          simp [ocrStep, hlt]
        rw [hstep]
        have ih := ocrFold_spec l
          (cleanOcrText raw, (pyStrip (cleanOcrText raw)).length) rfl
        refine ⟨ih.1, ?_, ?_⟩
        · rw [ih.2.1]
          congr 1
          omega
        · rcases ih.2.2 with heq | hm
          · rw [heq]
            exact Or.inr (by simp)
          · exact Or.inr (List.mem_cons_of_mem _ hm)
      · have hstep : ocrStep b (.ok raw) = b := by
          simp [ocrStep, hlt]
        rw [hstep]
        have ih := ocrFold_spec l b hb
        refine ⟨ih.1, ?_, ?_⟩
        · rw [ih.2.1]
          congr 1
          omega
        · rcases ih.2.2 with heq | hm
          · exact Or.inl heq
          · exact Or.inr (List.mem_cons_of_mem _ hm)

theorem ocrBest_spec (page : List (List (Except Str Str))) :
    (pyStrip (ocrBest page).1).length = (ocrBest page).2 ∧
      (ocrBest page).2 = maxCleanLen page ∧
      (ocrBest page = ([], 0) ∨ (ocrBest page).1 ∈ pageCandidates page) := by
  have h := ocrFold_spec page.flatten ([], 0) rfl
  rw [← ocrBest_eq_flatten] at h
  exact h

/-- C4: the kept OCR text of a page is (the strip of) a cleaned candidate of
maximal stripped length over all successful (variant, configuration)
attempts, and the page contributes a unit exactly when that maximal
length exceeds 10. -/
theorem ocr_page_best_candidate (page : List (List (Except Str Str))) (n : Nat) :
    (ocrPageDoc page n = none ↔ maxCleanLen page ≤ 10) ∧
      ∀ d, ocrPageDoc page n = some d →
        d.page = n ∧ ∃ c ∈ pageCandidates page, d.pageContent = pyStrip c ∧
          (pyStrip c).length = maxCleanLen page := by
  rcases ocrBest_spec page with ⟨hlen, hmax, hmem⟩
  by_cases h10 : 10 < maxCleanLen page
  · have h1 : 10 < (pyStrip (ocrBest page).1).length := by
      rw [hlen, hmax]
      exact h10
    have h2 : (ocrBest page).1.isEmpty = false := by
      rcases hsh : (ocrBest page).1 with _ | ⟨a, t⟩
      · rw [hsh] at h1
        simp [pyStrip] at h1
      · rfl
    have hdoc : ocrPageDoc page n =
        some { pageContent := pyStrip (ocrBest page).1, page := n,
               method := .ocr } := by
      unfold ocrPageDoc
      rw [if_pos (by rw [h2]; simp [h1])]
    constructor
    · rw [hdoc]
      constructor
      · intro hc
        cases hc
      · intro hc
        omega
    · intro d hd
      rw [hdoc] at hd
      injection hd with hd
      subst hd
      refine ⟨rfl, ?_⟩
      rcases hmem with heq | hm
      · rw [heq] at hmax
        simp at hmax
        omega
      · exact ⟨(ocrBest page).1, hm, rfl, by rw [hlen, hmax]⟩
  · have h1 : ¬ 10 < (pyStrip (ocrBest page).1).length := by
      rw [hlen, hmax]
      exact h10
    have hdoc : ocrPageDoc page n = none := by
      unfold ocrPageDoc
      rw [if_neg (by simp [h1])]
    constructor
    · rw [hdoc]
      simp
      omega
    · intro d hd
      rw [hdoc] at hd
      cases hd

/-- C4 witness: for the concrete page with two successful attempts, the
longer cleaned candidate becomes the unit of the page. -/
theorem ocr_page_best_candidate_witness :
    (ocrPageDoc c4Page 1 = none ↔ maxCleanLen c4Page ≤ 10) ∧
      ∀ d, ocrPageDoc c4Page 1 = some d →
        d.page = 1 ∧ ∃ c ∈ pageCandidates c4Page, d.pageContent = pyStrip c ∧
          (pyStrip c).length = maxCleanLen c4Page :=
  ocr_page_best_candidate c4Page 1

theorem pymupdfDocs_mem : ∀ (pages : List PdfPage) (idx : Nat),
    ∀ d ∈ pymupdfDocs pages idx, d.pageContent ≠ [] ∧ idx < d.page
  | [], _, d, hd => by simp [pymupdfDocs] at hd
  | p :: rest, idx, d, hd => by
    simp only [pymupdfDocs] at hd
    by_cases hc : (!(pymupdfPageText p).isEmpty &&
        !(pyStrip (pymupdfPageText p)).isEmpty) = true
    · rw [if_pos hc] at hd
      rcases List.mem_cons.mp hd with h1 | h1
      · subst h1
        simp only [Bool.and_eq_true, Bool.not_eq_true'] at hc
        refine ⟨?_, by simp⟩
        intro hn
        have hn' : pyStrip (pymupdfPageText p) = [] := hn
        rw [hn'] at hc
        simp at hc
      · have := pymupdfDocs_mem rest (idx + 1) d h1
        exact ⟨this.1, by omega⟩
    · rw [if_neg hc] at hd
      have := pymupdfDocs_mem rest (idx + 1) d hd
      exact ⟨this.1, by omega⟩

theorem pymupdfDocs_pairwise : ∀ (pages : List PdfPage) (idx : Nat),
    List.Pairwise (fun a b : Document => a.page < b.page) (pymupdfDocs pages idx)
  | [], _ => by simp [pymupdfDocs]
  | p :: rest, idx => by
    simp only [pymupdfDocs]
    by_cases hc : (!(pymupdfPageText p).isEmpty &&
        !(pyStrip (pymupdfPageText p)).isEmpty) = true
    · rw [if_pos hc]
      refine List.Pairwise.cons ?_ (pymupdfDocs_pairwise rest (idx + 1))
      intro d hd
      exact (pymupdfDocs_mem rest (idx + 1) d hd).2
    · rw [if_neg hc]
      exact pymupdfDocs_pairwise rest (idx + 1)

theorem extractTextWithPymupdf_mem (env : LoadEnv) :
    ∀ d ∈ extractTextWithPymupdf env, d.pageContent ≠ [] := by
  unfold extractTextWithPymupdf
  rcases env.fitzPages with e | pages
  · simp
  · exact fun d hd => (pymupdfDocs_mem pages 0 d hd).1

theorem extractTextWithPymupdf_pairwise (env : LoadEnv) :
    List.Pairwise (fun a b : Document => a.page < b.page)
      (extractTextWithPymupdf env) := by
  unfold extractTextWithPymupdf
  rcases env.fitzPages with e | pages
  · simp
  · exact pymupdfDocs_pairwise pages 0

theorem ocrPageDoc_mem {page : List (List (Except Str Str))} {n : Nat}
    {d : Document} (h : ocrPageDoc page n = some d) :
    d.pageContent ≠ [] ∧ d.page = n := by
  unfold ocrPageDoc at h
  split at h
  case isTrue hc =>
    injection h with h
    subst h
    simp only [Bool.and_eq_true, decide_eq_true_eq] at hc
    refine ⟨?_, rfl⟩
    intro hn
    have hn' : pyStrip (ocrBest page).1 = [] := hn
    rw [hn'] at hc
    simp at hc
  case isFalse => cases h

theorem ocrDocs_mem : ∀ (pages : List (List (List (Except Str Str)))) (idx : Nat),
    ∀ d ∈ ocrDocs pages idx, d.pageContent ≠ [] ∧ idx < d.page
  | [], _, d, hd => by simp [ocrDocs] at hd
  | p :: rest, idx, d, hd => by
    rcases hp : ocrPageDoc p (idx + 1) with _ | d0
    · simp only [ocrDocs, hp] at hd
      have := ocrDocs_mem rest (idx + 1) d hd
      exact ⟨this.1, by omega⟩
    · simp only [ocrDocs, hp] at hd
      rcases List.mem_cons.mp hd with h1 | h1
      · subst h1
        obtain ⟨hc, hpg⟩ := ocrPageDoc_mem hp
        exact ⟨hc, by omega⟩
      · have := ocrDocs_mem rest (idx + 1) d h1
        exact ⟨this.1, by omega⟩

theorem ocrDocs_pairwise : ∀ (pages : List (List (List (Except Str Str)))) (idx : Nat),
    List.Pairwise (fun a b : Document => a.page < b.page) (ocrDocs pages idx)
  | [], _ => by simp [ocrDocs]
  | p :: rest, idx => by
    rcases hp : ocrPageDoc p (idx + 1) with _ | d0
    · simp only [ocrDocs, hp]
      exact ocrDocs_pairwise rest (idx + 1)
    · simp only [ocrDocs, hp]
      refine List.Pairwise.cons ?_ (ocrDocs_pairwise rest (idx + 1))
      intro d hd
      obtain ⟨_, hpg⟩ := ocrPageDoc_mem hp
      have := (ocrDocs_mem rest (idx + 1) d hd).2
      omega

theorem extractTextWithOcr_mem (env : OcrEnv) :
    ∀ d ∈ extractTextWithOcr env, d.pageContent ≠ [] := by
  unfold extractTextWithOcr
  by_cases ha : tesseractAvailable env = true
  · rw [if_neg (by simp [ha])]
    rcases env.convert with e | pages
    · simp
    · exact fun d hd => (ocrDocs_mem pages 0 d hd).1
  · rw [if_pos (by simpa using ha)]
    simp

theorem extractTextWithOcr_pairwise (env : OcrEnv) :
    List.Pairwise (fun a b : Document => a.page < b.page)
      (extractTextWithOcr env) := by
  unfold extractTextWithOcr
  by_cases ha : tesseractAvailable env = true
  · rw [if_neg (by simp [ha])]
    rcases env.convert with e | pages
    · simp
    · exact ocrDocs_pairwise pages 0
  · rw [if_pos (by simpa using ha)]
    simp

/-- C9 counterexample: the alternative-loader stage passes external
units through unchecked, so one extraction run can return units whose
page numbers are not strictly increasing and whose content is empty
without being a placeholder or error unit. -/
theorem alt_units_break_invariant_cex :
    (pdfCascade c9Env).1 =
      [{ pageContent := ("twelve chars!").toList, page := 2,
         method := .alternative },
       { pageContent := [], page := 1, method := .alternative }] ∧
      ({ pageContent := [], page := 1,
         method := .alternative } : Document) ∈ (pdfCascade c9Env).1 ∧
      ¬ List.Pairwise (fun a b : Document => a.page < b.page)
        (pdfCascade c9Env).1 := by
  have h1 : (pdfCascade c9Env).1 =
      [{ pageContent := ("twelve chars!").toList, page := 2,
         method := .alternative },
       { pageContent := [], page := 1, method := .alternative }] := by decide
  refine ⟨h1, by rw [h1]; simp, ?_⟩
  rw [h1]
  intro h
  have h2 := (List.pairwise_cons.mp h).1
    { pageContent := [], page := 1, method := .alternative } (by simp)
  simp at h2

/-- C9 amended: every unit the cascade itself constructs — native, OCR
and placeholder stages — has nonempty content and strictly increasing
page numbers within the run; only the alternative-loader stage returns
external library units whose content and page metadata are unchecked. -/
theorem cascade_units_invariant (env : LoadEnv)
    (h : (pdfCascade env).2.stage ≠ ExtractionMethod.alternative) :
    (∀ d ∈ (pdfCascade env).1, d.pageContent ≠ []) ∧
      List.Pairwise (fun a b : Document => a.page < b.page)
        (pdfCascade env).1 := by
  by_cases h50 : 50 < (pyStrip (joinContents (extractTextWithPymupdf env))).length
  · rw [pdfCascade_native h50]
    exact ⟨extractTextWithPymupdf_mem env, extractTextWithPymupdf_pairwise env⟩
  · by_cases hocr : extractTextWithOcr env.ocr = []
    · by_cases halt : tryAlternativePdfLoaders env = []
      · rw [pdfCascade_placeholder h50 hocr halt]
        constructor
        · intro d hd
          rw [List.mem_singleton] at hd
          subst hd
          decide
        · simp
      · have : (pdfCascade env).2.stage = ExtractionMethod.alternative := by
          rw [pdfCascade_alt h50 hocr halt]
        exact absurd this h
    · rw [pdfCascade_ocr h50 hocr]
      exact ⟨extractTextWithOcr_mem env.ocr, extractTextWithOcr_pairwise env.ocr⟩

/-- C9 amended witness: a run that ends in the placeholder stage
satisfies the unit invariant. -/
theorem cascade_units_invariant_witness :
    (∀ d ∈ (pdfCascade c7Env).1, d.pageContent ≠ []) ∧
      List.Pairwise (fun a b : Document => a.page < b.page)
        (pdfCascade c7Env).1 :=
  cascade_units_invariant c7Env (by decide)

end RagLoader
